import Mathlib

/-!
Verification development for the menu-rs GTK backend
(`src/platform_impl/gtk/mod.rs`, `src/items/submenu.rs`).

The Rust code is shallowly embedded: the shared mutable `MenuEntry` cells
become explicit state records, GTK widgets become inert values recording the
state they were constructed with, the global `COUNTER` becomes an explicitly
threaded natural number, and panicking code paths return `Option`/`Except`
outcomes.  Native handle identity is abstracted to the data the code stores
for a handle.
-/

namespace MenuRs

/-- Modelled from the spec: `src/platform_impl/gtk/accelerator.rs`
(`to_gtk_mnemonic`) is not among the sources.  Spec section 4.5: a designated
marker character (the ampersand) embedded in the text marks the following
character as the access key, a doubled marker renders a literal marker, and
the translator converts bidirectionally to the native convention (GTK uses an
underscore, doubled for a literal underscore). -/
def toGtkMnemonicChars : List Char → List Char
  | [] => []
  | '&' :: '&' :: rest => '&' :: toGtkMnemonicChars rest
  | '&' :: rest => '_' :: toGtkMnemonicChars rest
  | '_' :: rest => '_' :: '_' :: toGtkMnemonicChars rest
  | c :: rest => c :: toGtkMnemonicChars rest

/-- Modelled from the spec: portable mnemonic text rendered in the native
(GTK underscore) convention. -/
def toGtkMnemonic (s : String) : String :=
  ⟨toGtkMnemonicChars s.data⟩

/-- Modelled from the spec: `from_gtk_mnemonic`, the native-to-portable
direction of the mnemonic translator of spec section 4.5. -/
def fromGtkMnemonicChars : List Char → List Char
  | [] => []
  | '_' :: '_' :: rest => '_' :: fromGtkMnemonicChars rest
  | '_' :: rest => '&' :: fromGtkMnemonicChars rest
  | '&' :: rest => '&' :: '&' :: fromGtkMnemonicChars rest
  | c :: rest => c :: fromGtkMnemonicChars rest

/-- Modelled from the spec: native label text read back in the portable
convention. -/
def fromGtkMnemonic (s : String) : String :=
  ⟨fromGtkMnemonicChars s.data⟩

/-!  ## Check-item sync guard (`MenuItemType::Check`)

State of one logical `CheckMenuItem`: the authoritative `checked` field, the
`is_syncing` guard flag, and the projection store
`HashMap<u32, Vec<gtk::CheckMenuItem>>` reduced to each native peer's
`active` flag, keyed by parent-projection id.  The store is an association
list; `HashMap` iteration order is irrelevant to the modelled code, which
always visits every value. -/
structure CheckState where
  checked : Bool
  is_syncing : Bool
  store : List (Nat × List Bool)
  deriving DecidableEq, Repr

/-- Read the `active` flag of the native peer at outer index `i` (position in
the store) and inner index `j` (position in that parent's vector). -/
def getPeerAt : List (Nat × List Bool) → Nat → Nat → Option Bool
  | [], _, _ => none
  | (_, l) :: _, 0, j => l[j]?
  | _ :: tl, i + 1, j => getPeerAt tl i j

/-- `gtk::CheckMenuItem::set_active` on the peer at position `(i, j)`:
the widget's `active` flag is overwritten. -/
def setPeerAt : List (Nat × List Bool) → Nat → Nat → Bool → List (Nat × List Bool)
  | [], _, _, _ => []
  | (k, l) :: tl, 0, j, v => (k, l.set j v) :: tl
  | hd :: tl, i + 1, j, v => hd :: setPeerAt tl i j v

/-- All peer positions of a store, outer indices starting at `i`. -/
def positionsFrom : Nat → List (Nat × List Bool) → List (Nat × Nat)
  | _, [] => []
  | i, (_, l) :: tl => ((List.range l.length).map fun j => (i, j)) ++ positionsFrom (i + 1) tl

/-- All peer positions of a store, in iteration order of the
`for items in store.values() { for i in items { ... } }` loops. -/
def positions (st : List (Nat × List Bool)) : List (Nat × Nat) :=
  positionsFrom 0 st

/-- Every native peer of every parent set to `v`: the intended outcome of a
full synchronisation pass. -/
def storeAll (v : Bool) (st : List (Nat × List Bool)) : List (Nat × List Bool) :=
  st.map fun kl => (kl.1, kl.2.map fun _ => v)

mutual

/-- The closure installed by `add_gtk_check_menuitem` via `connect_toggled`:
a compare-and-set on `is_syncing` (failure means the notification is the
synthetic one raised by a running propagation pass: return, no event); on
success, write the toggled widget's value to the logical `checked` field, call
`set_active` on every stored peer (each such call re-enters this very handler
synchronously whenever it changes the peer's value), clear `is_syncing`, then
send one `MenuEvent { id }`.  Emitted event ids are collected in the returned
list; `fuel` bounds the re-entrance depth (any positive fuel is enough, since
the guard stops the first synthetic layer). -/
def handleToggled : Nat → CheckState → Bool → Nat → CheckState × List Nat
  | 0, s, _, _ => (s, [])
  | fuel + 1, s, v, selfId =>
    if s.is_syncing then (s, [])
    else
      let s1 : CheckState := { s with is_syncing := true, checked := v }
      let r := propagateToPeers fuel v selfId (positions s1.store) s1
      let s3 : CheckState := { r.1 with is_syncing := false }
      (s3, r.2 ++ [selfId])
termination_by fuel _ _ _ => (fuel, 0, 0)

/-- The `for items in store.values() { for i in items { i.set_active(checked) } }`
loop over the snapshot of peer positions taken when the pass started: each
`set_active` overwrites the peer and, when that changed the peer's value, GTK
synchronously emits its `toggled` signal, re-entering `handleToggled`. -/
def propagateToPeers : Nat → Bool → Nat → List (Nat × Nat) → CheckState → CheckState × List Nat
  | _, _, _, [], s => (s, [])
  | fuel, v, selfId, p :: rest, s =>
    let s1 : CheckState := { s with store := setPeerAt s.store p.1 p.2 v }
    if getPeerAt s.store p.1 p.2 = some v then
      propagateToPeers fuel v selfId rest s1
    else
      let r1 := handleToggled fuel s1 v selfId
      let r2 := propagateToPeers fuel v selfId rest r1.1
      (r2.1, r1.2 ++ r2.2)
termination_by fuel _ _ ps _ => (fuel, 1, ps.length)

end

/-- A physical user click on the native peer at `(i, j)`: GTK flips the
widget's `active` flag and then emits `toggled`, entering the handler with the
widget's new value. -/
def userToggle (fuel : Nat) (s : CheckState) (i j selfId : Nat) : CheckState × List Nat :=
  match getPeerAt s.store i j with
  | none => (s, [])
  | some b =>
    let s1 : CheckState := { s with store := setPeerAt s.store i j (!b) }
    handleToggled fuel s1 (!b) selfId

/-- `CheckMenuItem::set_checked`: write the logical field, store `true` into
`is_syncing`, run the peer-update loop (whose synthetic `toggled`
notifications re-enter the guarded handler), store `false` into `is_syncing`.
No event is sent by `set_checked` itself. -/
def set_checked (s : CheckState) (v : Bool) (selfId fuel : Nat) : CheckState × List Nat :=
  let s1 : CheckState := { s with checked := v }
  let s2 : CheckState := { s1 with is_syncing := true }
  let r := propagateToPeers fuel v selfId (positions s2.store) s2
  ({ r.1 with is_syncing := false }, r.2)

/-!  ## The projector (`add_entries_to_gtkmenu` and the `add_gtk_*` family)

GTK widgets are modelled as inert values recording the state they were
constructed with (`label(...)`, `sensitive(...)`, `active(...)`, attached
submenu children).  A logical entry is the `MenuEntry` cell with its
kind-specific projection store; the store holds, per parent-projection id,
the data the code stores for each handle (for submenus, the pair of the
created `gtk::MenuItem` and the fresh child-projection id drawn from
`COUNTER`; accelerator-group handles are not modelled).  The global `COUNTER`
is threaded explicitly as `ctr`. -/

/-- The predefined-item kinds named by the source
(`add_gtk_predefined_menuitm`'s match); `PredfinedMenuItemType` itself lives
in the absent `predefined.rs`. -/
inductive PredefKind where
  | separator
  | copy
  | cut
  | paste
  | selectAll
  | about
  deriving DecidableEq, Repr

/-- A native GTK widget as constructed by the projector. -/
inductive GWidget where
  | itemW (label : String) (sensitive : Bool)
  | separatorW
  | checkW (label : String) (sensitive : Bool) (active : Bool)
  | submenuW (label : String) (sensitive : Bool) (children : List GWidget)

/-- A logical `MenuEntry` cell, one constructor per `MenuItemType` variant,
carrying its kind-specific projection store. -/
inductive GEntry where
  | submenu (text : String) (enabled : Bool) (children : List GEntry)
      (store : List (Nat × List (GWidget × Nat)))
  | normal (text : String) (enabled : Bool) (id : Nat) (store : List (Nat × List GWidget))
  | predefined (text : String) (enabled : Bool) (kind : PredefKind) (id : Nat)
      (store : List (Nat × List GWidget))
  | check (text : String) (enabled : Bool) (checked : Bool) (id : Nat)
      (store : List (Nat × List GWidget))

/-- `store.get_mut(&menu_id).push(x)` / `store.insert(menu_id, vec![x])`:
append `x` to the handle list recorded under `key`, creating the key if
absent. -/
def storeAddW {α : Type} (store : List (Nat × List α)) (key : Nat) (x : α) :
    List (Nat × List α) :=
  match store with
  | [] => [(key, [x])]
  | (k, l) :: tl => if k = key then (k, l ++ [x]) :: tl else (k, l) :: storeAddW tl key x

mutual

/-- One step of `add_entries_to_gtkmenu`'s dispatch: `add_gtk_submenu`,
`add_gtk_text_menuitem`, `add_gtk_predefined_menuitm` or
`add_gtk_check_menuitem` on one entry.  Returns the created widget (`None`
for the predefined catch-all arm), the entry with its store updated, and the
advanced counter.  Faithful quirks kept from the source: `add_gtk_submenu`
pushes into the submenu's store without consulting `add_to_store` (`reg`),
while the three item functions guard their store update with `if add_to_store`;
predefined items are built with `sensitive(true)` regardless of the logical
`enabled` field. -/
def projEntry (menuId : Nat) (reg : Bool) (ctr : Nat) :
    GEntry → Option GWidget × GEntry × Nat
  | .submenu t en children st =>
    let id := ctr
    let r := projEntries id reg (ctr + 1) children
    let w := GWidget.submenuW (toGtkMnemonic t) en r.1
    (some w, .submenu t en r.2.1 (storeAddW st menuId (w, id)), r.2.2)
  | .normal t en i st =>
    let w := GWidget.itemW (toGtkMnemonic t) en
    (some w, .normal t en i (if reg then storeAddW st menuId w else st), ctr)
  | .predefined t en k i st =>
    let w : Option GWidget :=
      match k with
      | .separator => some .separatorW
      | .copy => some (GWidget.itemW (toGtkMnemonic t) true)
      | .cut => some (GWidget.itemW (toGtkMnemonic t) true)
      | .paste => some (GWidget.itemW (toGtkMnemonic t) true)
      | .selectAll => some (GWidget.itemW (toGtkMnemonic t) true)
      | .about => some (GWidget.itemW (toGtkMnemonic t) true)
    match w with
    | some w2 => (some w2, .predefined t en k i (if reg then storeAddW st menuId w2 else st), ctr)
    | none => (none, .predefined t en k i st, ctr)
  | .check t en c i st =>
    let w := GWidget.checkW (toGtkMnemonic t) en c
    (some w, .check t en c i (if reg then storeAddW st menuId w else st), ctr)
termination_by e => sizeOf e

/-- `add_entries_to_gtkmenu`: project every entry, in order, into one native
parent identified by `menuId`, threading the counter; the widgets created
are collected in order (skipping the predefined `None` arm, as
`if let Some(item)` does). -/
def projEntries (menuId : Nat) (reg : Bool) (ctr : Nat) :
    List GEntry → List GWidget × List GEntry × Nat
  | [] => ([], [], ctr)
  | e :: es =>
    let r1 := projEntry menuId reg ctr e
    let r2 := projEntries menuId reg r1.2.2 es
    (r1.1.toList ++ r2.1, r1.2.1 :: r2.2.1, r2.2.2)
termination_by es => sizeOf es

end

mutual

/-- Spec section 8, projection completeness, written from the spec's words:
the native widget corresponds to the logical entry — same kind, label showing
the entry's text (in the native mnemonic convention), sensitivity equal to
the enabled flag, active flag equal to the checked flag, and, for submenus,
children matching the logical child sequence in order.  A native separator
carries no label, so no text condition applies to it. -/
def entryMatches : GEntry → GWidget → Bool
  | .submenu t en children _, .submenuW lbl sen ws =>
    lbl == toGtkMnemonic t && sen == en && entriesMatch children ws
  | .normal t en _ _, .itemW lbl sen => lbl == toGtkMnemonic t && sen == en
  | .predefined _ _ .separator _ _, .separatorW => true
  | .predefined t en k _ _, .itemW lbl sen =>
    k != .separator && lbl == toGtkMnemonic t && sen == en
  | .check t en c _ _, .checkW lbl sen act =>
    lbl == toGtkMnemonic t && sen == en && act == c
  | _, _ => false
termination_by e _ => sizeOf e

/-- Spec section 8: the widget list under a native root matches the logical
child sequence one-to-one, in order. -/
def entriesMatch : List GEntry → List GWidget → Bool
  | [], [] => true
  | e :: es, w :: ws => entryMatches e w && entriesMatch es ws
  | _, _ => false
termination_by es _ => sizeOf es

end

mutual

/-- Trees constructible through the public constructors: `PredefinedMenuItem::new`
sets `enabled: true` and no setter for it exists, so every predefined entry
is enabled. -/
def entryWf : GEntry → Bool
  | .submenu _ _ children _ => entriesWf children
  | .normal _ _ _ _ => true
  | .predefined _ en _ _ _ => en
  | .check _ _ _ _ _ => true
termination_by e => sizeOf e

/-- `entryWf` over a child sequence. -/
def entriesWf : List GEntry → Bool
  | [] => true
  | e :: es => entryWf e && entriesWf es
termination_by es => sizeOf es

end

/-!  ## Structural mutations (`Menu::add_menu_item`, `Menu::remove`)

For the structural operations the per-kind store payloads are irrelevant, so
an entry is flattened to its stable id, its kind tag and its projection store
with opaque `Nat` handle tokens.  Every branch of the kind dispatch in
`add_menu_item` projects the item once under each attached native parent and
records exactly one handle there (the per-kind construction itself is
`projEntry` above), so the dispatch collapses to one uniform store update. -/

/-- Tag of `MenuItemType`. -/
inductive MKind where
  | submenuK
  | normalK
  | predefinedK
  | checkK
  deriving DecidableEq, Repr

/-- A `MenuEntry` cell as seen by the structural operations. -/
structure MEntry where
  id : Nat
  kind : MKind
  text : String
  enabled : Bool
  store : List (Nat × List Nat)
  deriving DecidableEq, Repr

/-- `crate::Error` variants reachable from the modelled operations. -/
inductive MenuError where
  | notAChildOfThisMenu
  | outOfRange
  deriving DecidableEq, Repr

/-- `util::AddOp`. -/
inductive AddOp where
  | append
  | insert (position : Nat)
  deriving DecidableEq, Repr

/-- `InnerMenu`: the logical child sequence, the per-window native menubars
(`window id ↦ menubar present?`; the `gtk::Box` is irrelevant here), and the
context-menu projection root (its counter id and whether the `gtk::Menu` has
been created). -/
structure Menu where
  entries : List MEntry
  nativeMenus : List (Nat × Bool)
  contextMenuId : Nat
  contextMenuPresent : Bool
  deriving DecidableEq, Repr

/-- `HashMap::remove(&key)`: drop the key from the projection store. -/
def storeEraseKey (store : List (Nat × List Nat)) (key : Nat) : List (Nat × List Nat) :=
  store.filter fun kl => kl.1 != key

/-- Does the projection store record anything under `key`? -/
def storeHasKey (store : List (Nat × List Nat)) (key : Nat) : Bool :=
  store.any fun kl => kl.1 == key

/-- `Iterator::position`: index of the first element satisfying `p`. -/
def position? {α : Type} (p : α → Bool) : List α → Option Nat
  | [] => none
  | a :: tl => if p a then some 0 else (position? p tl).map (· + 1)

/-- `Vec::remove(index)` restricted to its non-panicking use here. -/
def removeAt {α : Type} : List α → Nat → List α
  | [], _ => []
  | _ :: tl, 0 => tl
  | a :: tl, n + 1 => a :: removeAt tl n

/-- `Vec::insert(position, x)` for `position ≤ length` (beyond that the Rust
call panics; `Menu.add_menu_item` guards this case and reports it as an
error instead). -/
def insertAt {α : Type} : List α → Nat → α → List α
  | l, 0, x => x :: l
  | [], _ + 1, x => [x]
  | a :: tl, p + 1, x => a :: insertAt tl p x

/-- Spec-side description of a successful removal: drop the first entry
satisfying `p`, keep everything else. -/
def eraseFirstP (p : MEntry → Bool) : List MEntry → List MEntry
  | [] => []
  | e :: tl => if p e then tl else e :: eraseFirstP p tl

/-- `Menu::add_menu_item` (gtk backend).  Phase one projects the item under
every attached native menubar and, when realized, the context menu (one fresh
native handle pushed into the item's store per parent; handle tokens are
drawn from the threaded counter).  Phase two mutates the logical child
sequence; `Vec::insert`'s out-of-range panic is embedded as an `outOfRange`
error result.  The menu value itself is returned unchanged in the error case
because the source mutates `inner.entries` only in phase two; the item cell,
however, keeps whatever phase one already did to it, which is why it is
returned separately. -/
def addNativePhase (m : Menu) (item : MEntry) (ctr : Nat) : MEntry × Nat :=
  let s := m.nativeMenus.foldl
    (fun (p : MEntry × Nat) mb =>
      if mb.2 then ({ p.1 with store := storeAddW p.1.store mb.1 p.2 }, p.2 + 1) else p)
    (item, ctr)
  if m.contextMenuPresent
  then ({ s.1 with store := storeAddW s.1.store m.contextMenuId s.2 }, s.2 + 1)
  else s

def Menu.add_menu_item (m : Menu) (item : MEntry) (op : AddOp) (ctr : Nat) :
    Except MenuError Menu × MEntry × Nat :=
  let s2 := addNativePhase m item ctr
  match op with
  | .append => (.ok { m with entries := m.entries ++ [s2.1] }, s2.1, s2.2)
  | .insert pos =>
    if pos ≤ m.entries.length then
      (.ok { m with entries := insertAt m.entries pos s2.1 }, s2.1, s2.2)
    else
      (.error .outOfRange, s2.1, s2.2)

/-- `Menu::remove` (gtk backend; `Submenu::remove` is identical except that
its child sequence is always-`Some`).  Phase one tears the item's native
projections down: `store.remove(menu_id)` for every attached menubar id and
`store.remove(&context_menu.0)` (for a submenu item the keys found there also
drive the recursive descendant teardown).  Phase two locates the entry whose
stable id equals `item.id()` and removes it, or fails with
`NotAChildOfThisMenu`. -/
def Menu.remove (m : Menu) (item : MEntry) : Except MenuError Menu × MEntry :=
  let item2 := m.nativeMenus.foldl
    (fun it mb => if mb.2 then { it with store := storeEraseKey it.store mb.1 } else it) item
  let item3 : MEntry := { item2 with store := storeEraseKey item2.store m.contextMenuId }
  match position? (fun e => e.id == item.id) m.entries with
  | some i => (.ok { m with entries := removeAt m.entries i }, item3)
  | none => (.error .notAChildOfThisMenu, item3)

/-- `Submenu::new` (gtk backend): the `MenuEntry` is built with
`..Default::default()`, so the `id` field keeps `u32::default()` — zero; the
counter is consumed only for the `context_menu` root id. -/
def Submenu.new (text : String) (enabled : Bool) (ctr : Nat) : MEntry × Nat :=
  ({ id := 0, kind := .submenuK, text := text, enabled := enabled, store := [] }, ctr + 1)

/-- `MenuItem::new` (gtk backend): `id: COUNTER.next()`.  Modelled from the
spec where `util::Counter` is absent: the process-wide counter is monotonic
and never yields zero (spec section 4.1 reserves zero for "no parent"), so
the threaded `ctr` is used under the invariant `1 ≤ ctr`. -/
def MenuItem.new (text : String) (enabled : Bool) (ctr : Nat) : MEntry × Nat :=
  ({ id := ctr, kind := .normalK, text := text, enabled := enabled, store := [] }, ctr + 1)

/-- `CheckMenuItem::new` (gtk backend): `id: COUNTER.next()`. -/
def CheckMenuItem.new (text : String) (enabled : Bool) (ctr : Nat) : MEntry × Nat :=
  ({ id := ctr, kind := .checkK, text := text, enabled := enabled, store := [] }, ctr + 1)

/-!  ## Read accessors (`CheckMenuItem::is_checked` and friends)

The getters read `store.get(&0)` — the projection list recorded under
parent-projection id zero — take the first widget of that list if any, and
otherwise fall back to the cached logical field. -/

/-- A native `gtk::CheckMenuItem` as the getters see it. -/
structure CWidget where
  label : String
  sensitive : Bool
  active : Bool
  deriving DecidableEq, Repr

/-- A `MenuEntry` cell of kind `Check` as the getters see it. -/
structure CEntry where
  text : String
  enabled : Bool
  checked : Bool
  store : List (Nat × List CWidget)
  deriving DecidableEq, Repr

/-- `HashMap::get(&key)` on an association-list store. -/
def storeGet {α : Type} : List (Nat × List α) → Nat → Option (List α)
  | [], _ => none
  | (k, l) :: tl, key => if k == key then some l else storeGet tl key

/-- `CheckMenuItem::is_checked`:
`store.get(&0).map(|items| items.get(0)).map(|i| i.map(|i| i.is_active()).unwrap_or(entry.checked)).unwrap_or(entry.checked)`. -/
def CheckMenuItem.is_checked (e : CEntry) : Bool :=
  match storeGet e.store 0 with
  | some items =>
    match items.head? with
    | some i => i.active
    | none => e.checked
  | none => e.checked

/-- `CheckMenuItem::is_enabled`: same selection, reading `is_sensitive()`,
falling back to `entry.enabled`. -/
def CheckMenuItem.is_enabled (e : CEntry) : Bool :=
  match storeGet e.store 0 with
  | some items =>
    match items.head? with
    | some i => i.sensitive
    | none => e.enabled
  | none => e.enabled

/-- `CheckMenuItem::text`: same selection, reading the native label through
`from_gtk_mnemonic`, falling back to `entry.text`.  (The widget label is
always present: every constructor sets it, so the source's
`label().map(...).unwrap_or_default()` collapses to the mapped case.) -/
def CheckMenuItem.text (e : CEntry) : String :=
  match storeGet e.store 0 with
  | some items =>
    match items.head? with
    | some i => fromGtkMnemonic i.label
    | none => e.text
  | none => e.text

/-- A native `gtk::MenuItem` as `MenuItem::text` sees it. -/
structure MWidget where
  label : String
  sensitive : Bool
  deriving DecidableEq, Repr

/-- A `MenuEntry` cell of kind `Normal` as the getters see it. -/
structure NEntry where
  text : String
  enabled : Bool
  store : List (Nat × List MWidget)
  deriving DecidableEq, Repr

/-- `MenuItem::text`: the same `store.get(&0)` selection shape as the check
getters. -/
def MenuItem.text (e : NEntry) : String :=
  match storeGet e.store 0 with
  | some items =>
    match items.head? with
    | some i => fromGtkMnemonic i.label
    | none => e.text
  | none => e.text

/-- The first native peer recorded anywhere in a projection store, in
registration order of the association list: what the claim's
"first-registered native peer" denotes. -/
def firstPeer : List (Nat × List CWidget) → Option CWidget
  | [] => none
  | (_, []) :: tl => firstPeer tl
  | (_, w :: _) :: _ => some w

/-!  ## `PredefinedMenuItem` (constructor and `set_text`) -/

/-- A `MenuEntry` cell as `PredefinedMenuItem` handles it (the projection
store plays no role before `set_text` diverges). -/
structure PDEntry where
  text : String
  enabled : Bool
  id : Nat
  kind : MKind
  deriving DecidableEq, Repr

/-- Modelled from the spec: the default text of each predefined kind
(`PredfinedMenuItemType::text()` lives in the absent `predefined.rs`); only
its existence matters below. -/
def predefDefaultText : PredefKind → String
  | .separator => ""
  | .copy => "&Copy"
  | .cut => "Cu&t"
  | .paste => "&Paste"
  | .selectAll => "Select &All"
  | .about => "&About"

/-- `PredefinedMenuItem::new`: text defaults to the kind's own text, enabled
is `true`, the id is drawn from the counter, and the kind tag is always
`Predefined`. -/
def PredefinedMenuItem.new (k : PredefKind) (text : Option String) (ctr : Nat) :
    PDEntry × Nat :=
  ({ text := text.getD (predefDefaultText k), enabled := true, id := ctr,
     kind := .predefinedK }, ctr + 1)

/-- `PredefinedMenuItem::set_text`: the cached text field is overwritten, then
the native-label update is guarded by `if let MenuItemType::Normal(store)`;
for any other kind the `else` branch runs `unreachable!()`, embedded as
`none`. -/
def PredefinedMenuItem.set_text (e : PDEntry) (t : String) : Option PDEntry :=
  let e2 : PDEntry := { e with text := t }
  match e2.kind with
  | .normalK => some e2
  | _ => none

/-- Is an `Except` outcome an error? -/
def isErr {ε α : Type} : Except ε α → Bool
  | .error _ => true
  | .ok _ => false

/-- The projection store of a submenu entry (empty for the other kinds). -/
def submenuStore : GEntry → List (Nat × List (GWidget × Nat))
  | .submenu _ _ _ st => st
  | _ => []

/-!  ## Lemmas: the sync guard -/

/-- A `toggled` notification arriving while `is_syncing` is set (the synthetic
notification produced by a running propagation pass) is dropped by the failed
compare-and-set: no state change, no event, no recursion. -/
theorem handleToggled_syncing (f : Nat) (s : CheckState) (v : Bool) (selfId : Nat)
    (h : s.is_syncing = true) : handleToggled f s v selfId = (s, []) := by
  cases f with
  | zero => simp [handleToggled]
  | succ f => simp [handleToggled, h]

/-- While the guard flag is set, the peer-update loop is a pure write of `v`
into each visited peer: every synthetic re-entry is dropped and no event is
emitted. -/
theorem propagateToPeers_syncing (f : Nat) (v : Bool) (selfId : Nat)
    (ps : List (Nat × Nat)) (s : CheckState) (h : s.is_syncing = true) :
    propagateToPeers f v selfId ps s
      = ({ s with store := ps.foldl (fun st p => setPeerAt st p.1 p.2 v) s.store }, []) := by
  induction ps generalizing s with
  | nil => simp [propagateToPeers]
  | cons p rest ih =>
    have h1 : ({ s with store := setPeerAt s.store p.1 p.2 v } : CheckState).is_syncing = true := h
    by_cases hc : getPeerAt s.store p.1 p.2 = some v
    · simp only [propagateToPeers, if_pos hc]
      rw [ih _ h1]
      simp
    · simp only [propagateToPeers, if_neg hc]
      rw [handleToggled_syncing _ _ _ _ h1, ih _ h1]
      simp

/-- Setting some index of a list to some value does not change the constant
image of the list. -/
theorem map_const_set (l : List Bool) (j : Nat) (b v : Bool) :
    (l.set j b).map (fun _ => v) = l.map fun _ => v := by
  induction l generalizing j with
  | nil => rfl
  | cons a tl ih =>
    cases j with
    | zero => simp
    | succ j => simp [ih j]

/-- Folding point-writes over shifted indices leaves the head alone. -/
theorem foldl_set_shift (v : Bool) (js : List Nat) (b : Bool) (l : List Bool) :
    (js.map Nat.succ).foldl (fun acc j => acc.set j v) (b :: l)
      = b :: js.foldl (fun acc j => acc.set j v) l := by
  induction js generalizing l with
  | nil => rfl
  | cons j js ih => simpa using ih (l.set j v)

/-- Writing `v` at every index of a list yields the constant list. -/
theorem range_foldl_set (v : Bool) (l : List Bool) :
    (List.range l.length).foldl (fun acc j => acc.set j v) l = l.map fun _ => v := by
  induction l with
  | nil => rfl
  | cons b l ih =>
    rw [List.length_cons, List.range_succ_eq_map]
    simp only [List.foldl_cons, List.set]
    rw [foldl_set_shift, ih]
    rfl

/-- `setPeerAt` at outer index `pre.length` acts on the head of the suffix. -/
theorem setPeerAt_append (pre : List (Nat × List Bool)) (k : Nat) (l : List Bool)
    (tl : List (Nat × List Bool)) (j : Nat) (v : Bool) :
    setPeerAt (pre ++ (k, l) :: tl) pre.length j v = pre ++ (k, l.set j v) :: tl := by
  induction pre with
  | nil => rfl
  | cons a pre ih => simp [setPeerAt, ih]

/-- Folding peer-writes at a fixed outer index acts entirely inside that
parent's vector. -/
theorem foldl_setPeerAt_fixed (v : Bool) (js : List Nat) (pre : List (Nat × List Bool))
    (k : Nat) (l : List Bool) (tl : List (Nat × List Bool)) :
    (js.map fun j => (pre.length, j)).foldl (fun st p => setPeerAt st p.1 p.2 v)
        (pre ++ (k, l) :: tl)
      = pre ++ (k, js.foldl (fun acc j => acc.set j v) l) :: tl := by
  induction js generalizing l with
  | nil => rfl
  | cons j js ih =>
    simp only [List.map_cons, List.foldl_cons]
    rw [setPeerAt_append]
    exact ih (l.set j v)

/-- Folding peer-writes over all positions of the suffix turns the suffix into
its fully synchronised form. -/
theorem positionsFrom_foldl (v : Bool) (st : List (Nat × List Bool))
    (pre : List (Nat × List Bool)) :
    (positionsFrom pre.length st).foldl (fun acc p => setPeerAt acc p.1 p.2 v) (pre ++ st)
      = pre ++ storeAll v st := by
  induction st generalizing pre with
  | nil => simp [positionsFrom, storeAll]
  | cons hd tlst ih =>
    obtain ⟨k, l⟩ := hd
    simp only [positionsFrom, List.foldl_append]
    rw [foldl_setPeerAt_fixed, range_foldl_set]
    have h1 : pre.length + 1 = (pre ++ [(k, l.map fun _ => v)]).length := by simp
    have h2 : pre ++ (k, l.map fun _ => v) :: tlst
        = (pre ++ [(k, l.map fun _ => v)]) ++ tlst := by simp
    rw [h1, h2, ih]
    simp [storeAll]

/-- Folding peer-writes over all positions of a store synchronises it. -/
theorem positions_foldl (v : Bool) (st : List (Nat × List Bool)) :
    (positions st).foldl (fun acc p => setPeerAt acc p.1 p.2 v) st = storeAll v st := by
  simpa [positions] using positionsFrom_foldl v st []

/-- Pre-writing `v` into one peer cannot change the fully synchronised
store. -/
theorem storeAll_setPeerAt (v : Bool) (st : List (Nat × List Bool)) (i j : Nat) :
    storeAll v (setPeerAt st i j v) = storeAll v st := by
  induction st generalizing i with
  | nil => rfl
  | cons hd tl ih =>
    obtain ⟨k, l⟩ := hd
    cases i with
    | zero => simp [setPeerAt, storeAll, map_const_set]
    | succ i =>
      have h := ih i
      simp only [storeAll] at h
      simp only [setPeerAt, storeAll, List.map_cons]
      rw [h]

/-- Claim C1: for a `CheckItem` with any number of native peers, a single user
toggle of one native peer (flipping the peer holding `b` to `!b`) updates the
logical checked state to the new value, sets every native peer of every
parent-projection id to the new value, and emits exactly the one event
`[selfId]` carrying the item's logical id; and (first conjunct) a toggle
notification arriving while the guard flag is set — the synthetic
notification caused by the propagation pass itself — changes nothing and
emits no event, so the total stays one event however many peer notifications
fire during the pass. -/
theorem C1_user_toggle_one_event :
    (∀ (f : Nat) (s : CheckState) (v : Bool) (selfId : Nat),
       s.is_syncing = true → handleToggled f s v selfId = (s, [])) ∧
    (∀ (fuel : Nat) (s : CheckState) (i j selfId : Nat) (b : Bool),
       s.is_syncing = false → getPeerAt s.store i j = some b → 1 ≤ fuel →
       userToggle fuel s i j selfId
         = ({ checked := !b, is_syncing := false, store := storeAll (!b) s.store },
            [selfId])) := by
  constructor
  · exact handleToggled_syncing
  · intro fuel s i j selfId b hsync hpeer hfuel
    obtain ⟨f, rfl⟩ : ∃ f, fuel = f + 1 := ⟨fuel - 1, by omega⟩
    simp only [userToggle, hpeer]
    have hs1 : ({ s with store := setPeerAt s.store i j (!b) } : CheckState).is_syncing
        = false := hsync
    simp only [handleToggled, hs1, hsync, Bool.false_eq_true, if_false]
    rw [propagateToPeers_syncing _ _ _ _ _ rfl]
    simp only [positions_foldl]
    rw [show ∀ st, storeAll (!b) (setPeerAt st i j (!b)) = storeAll (!b) st from
      fun st => storeAll_setPeerAt (!b) st i j]
    simp

/-- Claim C1 witness: a check item with three peers under two parent ids, all
unchecked; a user toggle of the first peer checks the logical state, checks
all three peers, and emits exactly one event. -/
theorem C1_user_toggle_one_event_witness :
    userToggle 2 ⟨false, false, [(1, [false, false]), (2, [false])]⟩ 0 0 42
      = (⟨true, false, [(1, [true, true]), (2, [true])]⟩, [42]) := by
  have h := C1_user_toggle_one_event.2 2
    ⟨false, false, [(1, [false, false]), (2, [false])]⟩ 0 0 42 false rfl rfl
    (by norm_num)
  exact h.trans (by decide)

/-- Claim C4: programmatic `set_checked(v)` writes the logical checked field,
sets the native active state of every recorded peer under every
parent-projection id to `v`, emits no event, and returns with the guard flag
clear (the peer-update loop runs with the flag set, so the synthetic toggle
notifications it provokes are all dropped by the guard). -/
theorem C4_set_checked_no_event :
    ∀ (s : CheckState) (v : Bool) (selfId fuel : Nat),
      set_checked s v selfId fuel
        = ({ checked := v, is_syncing := false, store := storeAll v s.store }, []) := by
  intro s v selfId fuel
  simp only [set_checked]
  rw [propagateToPeers_syncing _ _ _ _ _ rfl]
  simp only [positions_foldl]

/-!  ## Lemmas: structural mutations -/

/-- `Iterator::position` finds nothing exactly when no element satisfies the
predicate. -/
theorem position?_eq_none_iff {α : Type} (p : α → Bool) (l : List α) :
    position? p l = none ↔ ∀ a ∈ l, p a = false := by
  induction l with
  | nil => simp [position?]
  | cons a tl ih =>
    by_cases h : p a <;> simp [position?, h, ih]

/-- `Iterator::position` only looks at the predicate's values. -/
theorem position?_congr {α : Type} {p q : α → Bool} (l : List α)
    (h : ∀ a ∈ l, p a = q a) : position? p l = position? q l := by
  induction l with
  | nil => rfl
  | cons a tl ih =>
    have ha := h a (by simp)
    simp only [position?, ha]
    rw [ih fun a hm => h a (by simp [hm])]

/-- Removing the index found by `Iterator::position` drops exactly the first
matching element. -/
theorem removeAt_position? (p : MEntry → Bool) (l : List MEntry) (i : Nat)
    (h : position? p l = some i) : removeAt l i = eraseFirstP p l := by
  induction l generalizing i with
  | nil => simp [position?] at h
  | cons a tl ih =>
    by_cases hp : p a
    · simp only [position?, hp, if_pos] at h
      cases h
      simp [removeAt, eraseFirstP, hp]
    · simp only [position?, hp, Bool.false_eq_true, if_false, Option.map_eq_some'] at h
      obtain ⟨i2, hi2, rfl⟩ := h
      simp [removeAt, eraseFirstP, hp, ih i2 hi2]

/-- `HashMap::remove` on a key the store does not record is the identity. -/
theorem storeEraseKey_of_not_has (st : List (Nat × List Nat)) (k : Nat)
    (h : storeHasKey st k = false) : storeEraseKey st k = st := by
  induction st with
  | nil => rfl
  | cons hd tl ih =>
    simp only [storeHasKey, List.any_cons, Bool.or_eq_false_iff] at h
    simp only [storeEraseKey, List.filter_cons]
    rw [if_pos (by simpa [bne] using h.1)]
    have := ih (by simpa [storeHasKey] using h.2)
    simpa [storeEraseKey] using this

/-- Phase one of `Menu::remove` is the identity on an item holding no
projection under any of the menu's attached native ids. -/
theorem remove_phase1_noop (l : List (Nat × Bool)) (item : MEntry)
    (h : ∀ mb ∈ l, mb.2 = true → storeHasKey item.store mb.1 = false) :
    l.foldl (fun it mb =>
      if mb.2 then { it with store := storeEraseKey it.store mb.1 } else it) item = item := by
  induction l generalizing item with
  | nil => rfl
  | cons mb tl ih =>
    simp only [List.foldl_cons]
    by_cases hmb : mb.2 = true
    · rw [if_pos hmb, storeEraseKey_of_not_has _ _ (h mb (by simp) hmb)]
      exact ih item fun b hb => h b (by simp [hb])
    · rw [if_neg hmb]
      exact ih item fun b hb => h b (by simp [hb])

/-- `storeAddW` records its key. -/
theorem storeHasKey_storeAddW_self (st : List (Nat × List Nat)) (k : Nat) (x : Nat) :
    storeHasKey (storeAddW st k x) k = true := by
  induction st with
  | nil => simp [storeAddW, storeHasKey]
  | cons hd tl ih =>
    obtain ⟨k2, l⟩ := hd
    by_cases h : k2 = k
    · simp [storeAddW, if_pos h, storeHasKey, h]
    · have ih2 : ((storeAddW tl k x).any fun kl => kl.1 == k) = true := ih
      simp only [storeAddW, if_neg h, storeHasKey, List.any_cons, ih2, Bool.or_true]

/-- `storeAddW` keeps every key already recorded. -/
theorem storeHasKey_storeAddW_mono (st : List (Nat × List Nat)) (k k2 : Nat) (x : Nat)
    (h : storeHasKey st k2 = true) : storeHasKey (storeAddW st k x) k2 = true := by
  induction st with
  | nil => simp [storeHasKey] at h
  | cons hd tl ih =>
    obtain ⟨k3, l⟩ := hd
    by_cases hk : k3 = k
    · simp only [storeAddW, if_pos hk, storeHasKey, List.any_cons]
      simpa only [storeHasKey, List.any_cons] using h
    · simp only [storeHasKey, List.any_cons, Bool.or_eq_true] at h
      simp only [storeAddW, if_neg hk, storeHasKey, List.any_cons, Bool.or_eq_true]
      rcases h with h | h
      · exact Or.inl h
      · exact Or.inr (ih h)

/-- Phase one of `Menu::add_menu_item` keeps every key the item's store
already records. -/
theorem addPhase1_hasKey_mono (l : List (Nat × Bool)) (p : MEntry × Nat) (k : Nat)
    (h : storeHasKey p.1.store k = true) :
    storeHasKey ((l.foldl (fun (q : MEntry × Nat) mb =>
      if mb.2 then ({ q.1 with store := storeAddW q.1.store mb.1 q.2 }, q.2 + 1) else q)
      p).1).store k = true := by
  induction l generalizing p with
  | nil => exact h
  | cons mb tl ih =>
    simp only [List.foldl_cons]
    by_cases hmb : mb.2 = true
    · rw [if_pos hmb]
      exact ih _ (storeHasKey_storeAddW_mono _ _ _ _ h)
    · rw [if_neg hmb]
      exact ih _ h

/-- Phase one of `Menu::add_menu_item` records a projection under every
attached native menubar id. -/
theorem addPhase1_hasKey (l : List (Nat × Bool)) (p : MEntry × Nat) (k : Nat)
    (h : (k, true) ∈ l) :
    storeHasKey ((l.foldl (fun (q : MEntry × Nat) mb =>
      if mb.2 then ({ q.1 with store := storeAddW q.1.store mb.1 q.2 }, q.2 + 1) else q)
      p).1).store k = true := by
  induction l generalizing p with
  | nil => simp at h
  | cons mb tl ih =>
    simp only [List.foldl_cons]
    rcases List.mem_cons.mp h with h | h
    · subst h
      rw [if_pos rfl]
      exact addPhase1_hasKey_mono _ _ _ (storeHasKey_storeAddW_self _ _ _)
    · by_cases hmb : mb.2 = true
      · rw [if_pos hmb]; exact ih _ h
      · rw [if_neg hmb]; exact ih _ h

/-- Phase one of `Menu::add_menu_item` changes only the item's store. -/
theorem addPhase1_shape (l : List (Nat × Bool)) (item : MEntry) (ctr : Nat) :
    ∃ st, ((l.foldl (fun (q : MEntry × Nat) mb =>
      if mb.2 then ({ q.1 with store := storeAddW q.1.store mb.1 q.2 }, q.2 + 1) else q)
      (item, ctr)).1) = { item with store := st } := by
  induction l generalizing item ctr with
  | nil => exact ⟨item.store, rfl⟩
  | cons mb tl ih =>
    simp only [List.foldl_cons]
    by_cases hmb : mb.2 = true
    · rw [if_pos hmb]
      exact ih _ _
    · rw [if_neg hmb]
      exact ih _ _

/-- `Vec::insert` below the length splits the list at the position. -/
theorem insertAt_take_drop {α : Type} (l : List α) (pos : Nat) (x : α)
    (h : pos ≤ l.length) : insertAt l pos x = l.take pos ++ x :: l.drop pos := by
  induction l generalizing pos with
  | nil =>
    have hp : pos = 0 := by simpa using h
    subst hp
    rfl
  | cons a tl ih =>
    cases pos with
    | zero => rfl
    | succ p =>
      simp only [insertAt, List.take_succ_cons, List.drop_succ_cons, List.cons_append]
      rw [ih p (by simpa using h)]

/-- Phase one of `Menu::add_menu_item` only extends the item's projection
store; the entry's id, kind, text and enabled flag are untouched. -/
theorem addNativePhase_shape (m : Menu) (item : MEntry) (ctr : Nat) :
    ∃ st, (addNativePhase m item ctr).1 = { item with store := st } := by
  obtain ⟨st1, hst1⟩ := addPhase1_shape m.nativeMenus item ctr
  simp only [addNativePhase]
  by_cases hctx : m.contextMenuPresent
  · rw [if_pos hctx, hst1]
    exact ⟨_, rfl⟩
  · rw [if_neg hctx, hst1]
    exact ⟨_, rfl⟩

/-- Phase one of `Menu::add_menu_item` registers a projection under every
attached native menubar id. -/
theorem addNativePhase_hasKey (m : Menu) (item : MEntry) (ctr : Nat) (k : Nat)
    (hk : (k, true) ∈ m.nativeMenus) :
    storeHasKey ((addNativePhase m item ctr).1).store k = true := by
  simp only [addNativePhase]
  by_cases hctx : m.contextMenuPresent
  · rw [if_pos hctx]
    exact storeHasKey_storeAddW_mono _ _ _ _ (addPhase1_hasKey _ _ _ hk)
  · rw [if_neg hctx]
    exact addPhase1_hasKey _ _ _ hk

/-- `Menu::add_menu_item` hands back the phase-one-updated item cell, whatever
the op. -/
theorem add_item_snd_shape (m : Menu) (item : MEntry) (op : AddOp) (ctr : Nat) :
    ∃ st, (Menu.add_menu_item m item op ctr).2.1 = { item with store := st } := by
  obtain ⟨st, hst⟩ := addNativePhase_shape m item ctr
  refine ⟨st, ?_⟩
  cases op with
  | append => simpa [Menu.add_menu_item] using hst
  | insert pos =>
    by_cases hpos : pos ≤ m.entries.length
    · simp only [Menu.add_menu_item, if_pos hpos]
      exact hst
    · simp only [Menu.add_menu_item, if_neg hpos]
      exact hst

/-- An in-range insert succeeds, inserting the phase-one-updated item cell. -/
theorem add_item_insert_ok (m : Menu) (item : MEntry) (pos ctr : Nat)
    (h : pos ≤ m.entries.length) :
    (Menu.add_menu_item m item (.insert pos) ctr).1
      = .ok { m with
              entries :=
                insertAt m.entries pos
                  ((Menu.add_menu_item m item (.insert pos) ctr).2.1) } := by
  simp only [Menu.add_menu_item, if_pos h]

/-- Claim C5: `remove` fails with `NotAChildOfThisMenu` exactly when no entry
of the logical child sequence carries the item's stable id; on success the
first entry with the matching id is removed; and the outcome depends only on
the id of the handle passed in, not on which handle value carries it. -/
theorem C5_remove_matches_by_id :
    ∀ (m : Menu) (item : MEntry),
      ((Menu.remove m item).1 = .error .notAChildOfThisMenu ↔
        ∀ e ∈ m.entries, e.id ≠ item.id) ∧
      ((∃ e ∈ m.entries, e.id = item.id) →
        (Menu.remove m item).1
          = .ok { m with entries := eraseFirstP (fun e => e.id == item.id) m.entries }) ∧
      (∀ item2 : MEntry, item2.id = item.id →
        (Menu.remove m item).1 = (Menu.remove m item2).1) := by
  intro m item
  refine ⟨?_, ?_, ?_⟩
  · cases hpos : position? (fun e => e.id == item.id) m.entries with
    | none =>
      have hall := (position?_eq_none_iff _ _).mp hpos
      constructor
      · intro _ e he
        simpa using hall e he
      · intro _
        simp [Menu.remove, hpos]
    | some i =>
      constructor
      · intro hcontra
        simp [Menu.remove, hpos] at hcontra
      · intro hall
        exfalso
        have hnone : position? (fun e => e.id == item.id) m.entries = none :=
          (position?_eq_none_iff _ _).mpr fun e he => by simpa using hall e he
        rw [hpos] at hnone
        cases hnone
  · intro hex
    cases hpos : position? (fun e => e.id == item.id) m.entries with
    | none =>
      obtain ⟨e, he, hid⟩ := hex
      have := (position?_eq_none_iff _ _).mp hpos e he
      simp [hid] at this
    | some i =>
      simp [Menu.remove, hpos, removeAt_position? _ _ _ hpos]
  · intro item2 h2
    have hp : (fun e : MEntry => e.id == item.id) = fun e => e.id == item2.id := by
      funext e
      rw [h2]
    simp only [Menu.remove, hp]
    cases position? (fun e => e.id == item2.id) m.entries <;> rfl

/-- Claim C5 witness: removing a differently-wrapped handle with the same id
succeeds and removes the entry carrying that id. -/
theorem C5_remove_matches_by_id_witness :
    (Menu.remove ⟨[⟨3, .normalK, "y", true, []⟩], [], 1, false⟩
        ⟨3, .normalK, "z", true, []⟩).1
      = .ok { (⟨[⟨3, .normalK, "y", true, []⟩], [], 1, false⟩ : Menu) with
          entries := eraseFirstP (fun e => e.id == (3 : Nat)) [⟨3, .normalK, "y", true, []⟩] } :=
  (C5_remove_matches_by_id ⟨[⟨3, .normalK, "y", true, []⟩], [], 1, false⟩
    ⟨3, .normalK, "z", true, []⟩).2.1 ⟨⟨3, .normalK, "y", true, []⟩, by simp, rfl⟩

/-- Claim C6: `insert(item, i)` on a menu with `n` logical children fails with
the out-of-range outcome when `i > n` (the `Vec::insert` panic, embedded as
an `outOfRange` error) instead of clamping the position, and for `i ≤ n`
places the item at index `i`, shifting the later children right. -/
theorem C6_insert_bounds :
    ∀ (m : Menu) (item : MEntry) (pos ctr : Nat),
      (m.entries.length < pos →
        (Menu.add_menu_item m item (.insert pos) ctr).1 = .error .outOfRange) ∧
      (pos ≤ m.entries.length →
        ∃ st, (Menu.add_menu_item m item (.insert pos) ctr).1
          = .ok { m with entries :=
              m.entries.take pos ++ { item with store := st } :: m.entries.drop pos }) := by
  intro m item pos ctr
  constructor
  · intro h
    simp only [Menu.add_menu_item]
    rw [if_neg (by omega)]
  · intro h
    obtain ⟨st, hst⟩ := add_item_snd_shape m item (.insert pos) ctr
    refine ⟨st, ?_⟩
    rw [add_item_insert_ok m item pos ctr h, hst, insertAt_take_drop _ _ _ h]

/-- Claim C6 witness: inserting at position 2 of a one-entry menu fails with
the out-of-range outcome; inserting at position 1 places the item after the
existing entry. -/
theorem C6_insert_bounds_witness :
    (Menu.add_menu_item ⟨[⟨3, .normalK, "y", true, []⟩], [], 1, false⟩
        ⟨4, .normalK, "z", true, []⟩ (.insert 2) 10).1 = .error .outOfRange ∧
    ∃ st, (Menu.add_menu_item ⟨[⟨3, .normalK, "y", true, []⟩], [], 1, false⟩
        ⟨4, .normalK, "z", true, []⟩ (.insert 1) 10).1
      = .ok { (⟨[⟨3, .normalK, "y", true, []⟩], [], 1, false⟩ : Menu) with
          entries := [⟨3, .normalK, "y", true, []⟩].take 1
            ++ ({ (⟨4, .normalK, "z", true, []⟩ : MEntry) with store := st })
            :: [⟨3, .normalK, "y", true, []⟩].drop 1 } :=
  ⟨(C6_insert_bounds ⟨[⟨3, .normalK, "y", true, []⟩], [], 1, false⟩
      ⟨4, .normalK, "z", true, []⟩ 2 10).1 (by norm_num),
   (C6_insert_bounds ⟨[⟨3, .normalK, "y", true, []⟩], [], 1, false⟩
      ⟨4, .normalK, "z", true, []⟩ 1 10).2 (by norm_num)⟩

/-- Claim C9: every submenu built by `Submenu::new` keeps the defaulted id
zero (`..Default::default()`; the counter is consumed only for the context
menu root), so all submenus share id 0; consequently on a menu whose
submenu entries are exactly its id-0 entries, `remove` of any submenu handle
removes the first submenu of the logical sequence — not necessarily the one
passed in. -/
theorem C9_submenu_id_zero :
    (∀ (t : String) (en : Bool) (c : Nat), ((Submenu.new t en c).1).id = 0) ∧
    (∀ (m : Menu) (item : MEntry),
      (∀ e ∈ m.entries, (e.kind = MKind.submenuK ↔ e.id = 0)) →
      item.id = 0 →
      (∃ e ∈ m.entries, e.kind = MKind.submenuK) →
      (Menu.remove m item).1
        = .ok { m with entries :=
            eraseFirstP (fun e => e.kind == MKind.submenuK) m.entries }) := by
  constructor
  · intro t en c
    rfl
  · intro m item hwf hid hex
    have hcong : position? (fun e => e.id == item.id) m.entries
        = position? (fun e => e.kind == MKind.submenuK) m.entries := by
      apply position?_congr
      intro e he
      have hiff := hwf e he
      rw [hid]
      by_cases hk : e.kind = MKind.submenuK
      · simp [hk, hiff.mp hk]
      · have hz : e.id ≠ 0 := fun hz => hk (hiff.mpr hz)
        simp [hk, hz]
    cases hpos : position? (fun e => e.kind == MKind.submenuK) m.entries with
    | none =>
      obtain ⟨e, he, hk⟩ := hex
      have := (position?_eq_none_iff _ _).mp hpos e he
      simp [hk] at this
    | some i =>
      have hpos2 : position? (fun e => e.id == item.id) m.entries = some i := by
        rw [hcong, hpos]
      simp [Menu.remove, hpos2, removeAt_position? _ _ _ hpos]

/-- Claim C9 witness: a menu holding a normal item and two distinct submenus;
removing the *second* submenu handle removes the *first* submenu from the
logical sequence. -/
theorem C9_submenu_id_zero_witness :
    (Menu.remove ⟨[⟨4, .normalK, "n", true, []⟩, ⟨0, .submenuK, "s1", true, []⟩,
        ⟨0, .submenuK, "s2", true, []⟩], [], 1, false⟩ ⟨0, .submenuK, "s2", true, []⟩).1
      = .ok { (⟨[⟨4, .normalK, "n", true, []⟩, ⟨0, .submenuK, "s1", true, []⟩,
          ⟨0, .submenuK, "s2", true, []⟩], [], 1, false⟩ : Menu) with
          entries := eraseFirstP (fun e => e.kind == MKind.submenuK)
            [⟨4, .normalK, "n", true, []⟩, ⟨0, .submenuK, "s1", true, []⟩,
             ⟨0, .submenuK, "s2", true, []⟩] } :=
  C9_submenu_id_zero.2 ⟨[⟨4, .normalK, "n", true, []⟩, ⟨0, .submenuK, "s1", true, []⟩,
      ⟨0, .submenuK, "s2", true, []⟩], [], 1, false⟩ ⟨0, .submenuK, "s2", true, []⟩
    (by decide) rfl ⟨⟨0, .submenuK, "s1", true, []⟩, by simp, rfl⟩

/-- Claim C3 counterexample: an out-of-range `insert` on a menu with one
attached native menubar returns an error, yet the returned item cell is not
the one passed in — phase one already extended its projection store under the
attached menubar id before the logical insert failed. -/
theorem C3_counterexample :
    ¬ (∀ (m : Menu) (item : MEntry) (op : AddOp) (ctr : Nat),
        isErr (Menu.add_menu_item m item op ctr).1 = true →
        (Menu.add_menu_item m item op ctr).2.1 = item) := by
  intro h
  have := h ⟨[], [(7, true)], 1, false⟩ ⟨2, .normalK, "x", true, []⟩ (.insert 1) 10
    (by decide)
  exact absurd this (by decide)

/-- Claim C3 (amended): `remove` is all-or-nothing — when it returns
`NotAChildOfThisMenu` and the item holds no projection under the menu's
parent ids (which is the case for any item never added to this menu), the
item's projection store and, by construction of the error path, the logical
child sequence are exactly as before.  A failed out-of-range `insert`, by
contrast, leaves the logical child sequence unchanged but has already
registered a native projection for the item under every attached native
menubar. -/
theorem C3_atomicity :
    (∀ (m : Menu) (item : MEntry),
      (∀ mb ∈ m.nativeMenus, mb.2 = true → storeHasKey item.store mb.1 = false) →
      storeHasKey item.store m.contextMenuId = false →
      isErr (Menu.remove m item).1 = true →
      (Menu.remove m item).2 = item) ∧
    (∀ (m : Menu) (item : MEntry) (pos ctr : Nat),
      m.entries.length < pos →
      isErr (Menu.add_menu_item m item (.insert pos) ctr).1 = true ∧
      ∀ k, (k, true) ∈ m.nativeMenus →
        storeHasKey ((Menu.add_menu_item m item (.insert pos) ctr).2.1).store k = true) := by
  constructor
  · intro m item h1 h2 _
    simp only [Menu.remove]
    rw [remove_phase1_noop _ _ h1, storeEraseKey_of_not_has _ _ h2]
    cases position? (fun e => e.id == item.id) m.entries <;> rfl
  · intro m item pos ctr h
    constructor
    · simp only [Menu.add_menu_item]
      rw [if_neg (by omega)]
      rfl
    · intro k hk
      simp only [Menu.add_menu_item]
      rw [if_neg (by omega)]
      exact addNativePhase_hasKey m item ctr k hk

/-- Claim C3 witness: the remove half at an item with an empty store, and the
insert half at position 1 of an empty menu with one attached menubar. -/
theorem C3_atomicity_witness :
    (Menu.remove ⟨[], [(7, true)], 1, false⟩ ⟨2, .normalK, "x", true, []⟩).2
      = ⟨2, .normalK, "x", true, []⟩ ∧
    isErr (Menu.add_menu_item ⟨[], [(7, true)], 1, false⟩ ⟨2, .normalK, "x", true, []⟩
        (.insert 1) 10).1 = true :=
  ⟨C3_atomicity.1 ⟨[], [(7, true)], 1, false⟩ ⟨2, .normalK, "x", true, []⟩
      (by decide) (by decide) (by decide),
   (C3_atomicity.2 ⟨[], [(7, true)], 1, false⟩ ⟨2, .normalK, "x", true, []⟩ 1 10
      (by norm_num)).1⟩

/-- Claim C8 counterexample: a check item whose only native peer — hence its
first-registered peer — is recorded under parent-projection id 5 with native
`active = true` while the cached logical field is `false`: the getter ignores
the peer (it reads only key 0) and returns the cached `false`, so the claim
that getters read the first-registered peer whenever one is recorded fails. -/
theorem C8_counterexample :
    ¬ (∀ (e : CEntry) (w : CWidget), firstPeer e.store = some w →
        CheckMenuItem.is_checked e = w.active) := by
  intro h
  have := h ⟨"t", true, false, [(5, [⟨"x", true, true⟩])]⟩ ⟨"x", true, true⟩ rfl
  exact absurd this (by decide)

/-- Claim C8 (amended): the text/enabled/checked getters return the native
state of the first peer recorded under parent-projection id 0 when one exists
there, and fall back to the cached logical field otherwise — peers recorded
under any other parent-projection id are ignored, so an item projected only
into real windows reads from its logical cache. -/
theorem C8_getters_read_key_zero :
    ∀ (e : CEntry),
      (∀ (w : CWidget) (ws : List CWidget), storeGet e.store 0 = some (w :: ws) →
        CheckMenuItem.is_checked e = w.active ∧
        CheckMenuItem.is_enabled e = w.sensitive ∧
        CheckMenuItem.text e = fromGtkMnemonic w.label) ∧
      ((storeGet e.store 0 = none ∨ storeGet e.store 0 = some []) →
        CheckMenuItem.is_checked e = e.checked ∧
        CheckMenuItem.is_enabled e = e.enabled ∧
        CheckMenuItem.text e = e.text) := by
  intro e
  constructor
  · intro w ws h
    refine ⟨?_, ?_, ?_⟩ <;>
      simp [CheckMenuItem.is_checked, CheckMenuItem.is_enabled, CheckMenuItem.text, h]
  · intro h
    rcases h with h | h <;>
      refine ⟨?_, ?_, ?_⟩ <;>
        simp [CheckMenuItem.is_checked, CheckMenuItem.is_enabled, CheckMenuItem.text, h]

/-- Claim C8 witness: with a peer recorded under key 0 the getter reads its
native state; with peers recorded only under key 5 it reads the cache. -/
theorem C8_getters_read_key_zero_witness :
    CheckMenuItem.is_checked ⟨"t", true, false, [(0, [⟨"x", true, true⟩])]⟩ = true ∧
    CheckMenuItem.is_checked ⟨"t", true, false, [(5, [⟨"x", true, true⟩])]⟩ = false :=
  ⟨((C8_getters_read_key_zero ⟨"t", true, false, [(0, [⟨"x", true, true⟩])]⟩).1
      ⟨"x", true, true⟩ [] (by decide)).1,
   ((C8_getters_read_key_zero ⟨"t", true, false, [(5, [⟨"x", true, true⟩])]⟩).2
      (Or.inl (by decide))).1⟩

/-- Claim C10: every entry built by `PredefinedMenuItem::new` carries the
`Predefined` kind, while `set_text`'s native-update path matches only the
`Normal` kind, so `set_text` on any predefined item falls into the
`unreachable!()` branch and never returns normally (embedded as `none`). -/
theorem C10_predefined_set_text_unreachable :
    ∀ (k : PredefKind) (txt : Option String) (ctr : Nat) (t : String),
      PredefinedMenuItem.set_text ((PredefinedMenuItem.new k txt ctr).1) t = none := by
  intro k txt ctr t
  rfl

/-- Claim C7: projecting a submenu with `register = false` (the transient
context-menu popup path, which projects under parent id 0) nevertheless adds
an entry to the submenu's projection map: `add_gtk_submenu` pushes the
`(item, submenu, accel-group, child-id)` tuple into the store without
consulting `add_to_store`, unlike its three sibling functions.  Evaluated at
a childless submenu with an empty store: after the `register = false` pass
the store records the created handle pair under key 0. -/
theorem C7_register_false_submenu_still_stored :
    ∀ (t : String) (en : Bool),
      submenuStore ((projEntry 0 false 1 (GEntry.submenu t en [] [])).2.1)
        = [(0, [(GWidget.submenuW (toGtkMnemonic t) en [], 1)])] := by
  intro t en
  simp [projEntry, projEntries, storeAddW, submenuStore]

mutual

/-- The projector emits, for every well-formed entry, one widget matching the
entry's kind, text, enabled and checked state. -/
theorem projEntry_produces_match (menuId : Nat) (reg : Bool) (ctr : Nat) (e : GEntry)
    (h : entryWf e = true) :
    ∃ w, (projEntry menuId reg ctr e).1 = some w ∧ entryMatches e w = true := by
  cases e with
  | submenu t en children st =>
    have hc : entriesWf children = true := by simpa [entryWf] using h
    refine ⟨GWidget.submenuW (toGtkMnemonic t) en (projEntries ctr reg (ctr + 1) children).1,
      ?_, ?_⟩
    · simp [projEntry]
    · have hm := projEntries_produce_match ctr reg (ctr + 1) children hc
      simp [entryMatches, hm]
  | normal t en i st =>
    refine ⟨GWidget.itemW (toGtkMnemonic t) en, ?_, ?_⟩
    · simp [projEntry]
    · simp [entryMatches]
  | predefined t en k i st =>
    have he : en = true := by simpa [entryWf] using h
    subst he
    cases k with
    | separator =>
      refine ⟨GWidget.separatorW, ?_, ?_⟩ <;> simp [projEntry, entryMatches]
    | copy =>
      refine ⟨GWidget.itemW (toGtkMnemonic t) true, ?_, ?_⟩ <;>
        simp [projEntry, entryMatches]
    | cut =>
      refine ⟨GWidget.itemW (toGtkMnemonic t) true, ?_, ?_⟩ <;>
        simp [projEntry, entryMatches]
    | paste =>
      refine ⟨GWidget.itemW (toGtkMnemonic t) true, ?_, ?_⟩ <;>
        simp [projEntry, entryMatches]
    | selectAll =>
      refine ⟨GWidget.itemW (toGtkMnemonic t) true, ?_, ?_⟩ <;>
        simp [projEntry, entryMatches]
    | about =>
      refine ⟨GWidget.itemW (toGtkMnemonic t) true, ?_, ?_⟩ <;>
        simp [projEntry, entryMatches]
  | check t en c i st =>
    refine ⟨GWidget.checkW (toGtkMnemonic t) en c, ?_, ?_⟩
    · simp [projEntry]
    · simp [entryMatches]
termination_by sizeOf e

/-- `add_entries_to_gtkmenu` emits widgets matching the logical child
sequence one-to-one, in order. -/
theorem projEntries_produce_match (menuId : Nat) (reg : Bool) (ctr : Nat)
    (es : List GEntry) (h : entriesWf es = true) :
    entriesMatch es (projEntries menuId reg ctr es).1 = true := by
  cases es with
  | nil => simp [projEntries, entriesMatch]
  | cons e tl =>
    have h2 : entryWf e = true ∧ entriesWf tl = true := by
      simpa [entriesWf, Bool.and_eq_true] using h
    obtain ⟨w, hw, hmw⟩ := projEntry_produces_match menuId reg ctr e h2.1
    have hrest := projEntries_produce_match menuId reg (projEntry menuId reg ctr e).2.2 tl h2.2
    simp only [projEntries]
    rw [hw]
    simp [entriesMatch, hmw, hrest]
termination_by sizeOf es

end

/-- Claim C2: for every constructible logical tree and every attachment
(any parent id, any counter state, with or without store registration —
covering windows attached in any order, also after mutations, since each
attachment projects from the current logical sequence), the projector emits
exactly one native widget per logical entry, in the order of the logical
child sequence, with native label, sensitivity and active state agreeing with
the entry's text (under the mnemonic display convention), enabled and checked
state — recursively for submenu subtrees, i.e. the native tree matches the
logical tree's in-order traversal. -/
theorem C2_projection_completeness :
    ∀ (menuId : Nat) (reg : Bool) (ctr : Nat) (es : List GEntry),
      entriesWf es = true →
      entriesMatch es (projEntries menuId reg ctr es).1 = true :=
  fun menuId reg ctr es h => projEntries_produce_match menuId reg ctr es h

/-- Claim C2 witness: the spec's own scenario tree — a File submenu holding a
normal item, a separator and an unchecked check item — projects to a matching
native tree. -/
theorem C2_projection_completeness_witness :
    entriesWf [GEntry.submenu ("&File") true
      [GEntry.normal ("Item A") true 5 [], GEntry.predefined ("") true .separator 6 [],
       GEntry.check ("Check B") true false 7 []] []] = true ∧
    entriesMatch [GEntry.submenu ("&File") true
      [GEntry.normal ("Item A") true 5 [], GEntry.predefined ("") true .separator 6 [],
       GEntry.check ("Check B") true false 7 []] []]
      (projEntries 3 true 10 [GEntry.submenu ("&File") true
        [GEntry.normal ("Item A") true 5 [], GEntry.predefined ("") true .separator 6 [],
         GEntry.check ("Check B") true false 7 []] []]).1 = true :=
  ⟨by simp [entriesWf, entryWf],
   C2_projection_completeness 3 true 10 [GEntry.submenu ("&File") true
     [GEntry.normal ("Item A") true 5 [], GEntry.predefined ("") true .separator 6 [],
      GEntry.check ("Check B") true false 7 []] []] (by simp [entriesWf, entryWf])⟩

end MenuRs
